import Mathlib

/-!
# Verification of the InstrumentControl acquisition pipeline

Shallow embedding, in Lean 4, of the parts of the InstrumentControl
repository (axion-haloscope data-acquisition engine) that its specification
makes quantified claims about:

* `ATS::setExternalSampleClock`     (src/instruments/ATS.cpp, lines 62-112)
* `ATS::suggestBufferNumber`        (src/instruments/ATS.cpp, lines 232-266)
* the code-to-voltage conversion and the odd-index sign alternation in the
  acquisition loops                 (src/instruments/ATS.cpp, lines 486-497
                                     and 788-797)
* the error-handling tail of `ATS::AcquireDataMultithreadedContinuous`
                                    (src/instruments/ATS.cpp, lines 821-936)
* the consumer loops `processingThread`, `decisionMakingThread`,
  `saveDataToBin`                   (src/util/multiThreading.cpp)
* `findClosestIndex`                (src/util/dataProcessingUtils.cpp,
                                     lines 105-118)

C++ `double` values are modelled as exact rationals (`ℚ`); every quantity
that appears in the claims is exactly representable and every operation
performed on it is exact at the concrete inputs considered, except where a
comment notes the IEEE behaviour explicitly (division by zero).  Machine
integers (`U32`) are modelled as `ℕ` with explicit `% 2^32` where the C++
arithmetic can wrap.
-/

namespace InstrumentControl

/-! ## Sample-to-voltage conversion (ATS.cpp lines 489-490, 789-790)

`complexOutput[i][0] = (bufferData[i] / (double)0xFFFF) * 2 * inputRange - inputRange`
-/

/-- One 16-bit unsigned sample code converted to volts:
`(c / 0xFFFF) * 2 * range - range`. -/
def convertCode (c : ℕ) (range : ℚ) : ℚ :=
  ((c : ℚ) / 0xFFFF) * 2 * range - range

/-! ## Buffer conversion with the odd-index sign alternation
(ATS.cpp lines 788-797)

The DMA buffer holds `2*n` unsigned shorts: first the `n` channel-A codes,
then the `n` channel-B codes.  Sample `i` of the emitted complex buffer is
`(convert A[i], convert B[i])`, negated in both components when `i` is odd
("trick to 0-center the dft").  In `AcquireData` (lines 486-497) the same
loop body runs with `i` the index into the single emitted whole-acquisition
array; the parity test is on that emitted-array index in both loops. -/

/-- The complex buffer emitted for raw channel data `bufferData`
(length `2*n`, channel A in the first half, channel B in the second). -/
def convertBuffer (bufferData : List ℕ) (range : ℚ) : List (ℚ × ℚ) :=
  let n := bufferData.length / 2
  (List.range n).map (fun i =>
    let re := convertCode (bufferData.getD i 0) range
    let im := convertCode (bufferData.getD (n + i) 0) range
    if i % 2 = 1 then (-re, -im) else (re, im))

/-! ## Sample-clock selection (ATS.cpp lines 62-112) -/

/-- The bare sample rates the board supports: `{150e6, 151e6, …, 180e6}`
(`for (int rate = 150e6; rate <= 180e6; rate += 1e6)`). -/
def bareSampleRates : List ℕ :=
  (List.range 31).map (fun k => 150000000 + 1000000 * k)

/-- `requestedSampleRate = min(std::abs(requestedSampleRate), 180e6)`. -/
def clampRate (r : ℚ) : ℚ := min |r| 180000000

/-- Decimation candidate for one bare rate:
`(int) min(std::round((double)rate/requestedSampleRate), 10000)`.
C++ `std::round` is round-half-away-from-zero; every argument here is
nonnegative, so it agrees with Mathlib's `round` (round-half-up).
When the clamped request is `0`, IEEE division gives `+inf`, which the
`min` replaces by `10000`; the `r' = 0` branch encodes that. -/
def decimationFor (r' : ℚ) (bare : ℕ) : ℤ :=
  if r' = 0 then 10000 else min (round ((bare : ℚ) / r')) 10000

/-- Effective sample rate of one candidate pair:
`(double)rate / (double)factor`. -/
def effectiveRate (r' : ℚ) (bare : ℕ) : ℚ :=
  (bare : ℚ) / ((decimationFor r' bare : ℤ) : ℚ)

/-- Largest finite `double`, the initial value of `minError = DBL_MAX`. -/
def dblMax : ℚ := (2 ^ 53 - 1) * 2 ^ 971

/-- The selection loop (lines 84-97): scan the error list, remember the
first strictly smaller error, break early when the error hits `0`.
(The break cannot change the selected index: errors are absolute values,
so no later error can be strictly below `0`.) -/
def bestIndexLoop : List ℚ → ℕ → ℕ → ℚ → ℕ
  | [], _, best, _ => best
  | e :: rest, i, best, minErr =>
    if e < minErr then
      if e = 0 then i else bestIndexLoop rest (i + 1) i e
    else bestIndexLoop rest (i + 1) best minErr

/-- The per-candidate absolute errors
`std::abs(effectiveSampleRates[i] - requestedSampleRate)`. -/
def clockErrors (r' : ℚ) : List ℚ :=
  bareSampleRates.map (fun b => |effectiveRate r' b - r'|)

/-- Index selected by `setExternalSampleClock` for request `r`. -/
def bestClockIndex (r : ℚ) : ℕ :=
  bestIndexLoop (clockErrors (clampRate r)) 0 0 dblMax

/-- The bare rate sent to `AlazarSetCaptureClock`:
`bareSampleRates[bestIndex]`. -/
def selectedBareRate (r : ℚ) : ℕ := bareSampleRates.getD (bestClockIndex r) 0

/-- The decimation factor of the selected pair: `decimationFactors[bestIndex]`. -/
def selectedDecimation (r : ℚ) : ℤ := decimationFor (clampRate r) (selectedBareRate r)

/-- The realized rate returned: `effectiveSampleRates[bestIndex]`. -/
def realizedRate (r : ℚ) : ℚ := effectiveRate (clampRate r) (selectedBareRate r)

/-! ## Buffer-count suggestion (instruments/ATS.cpp lines 232-266)

`U32 bytesPerSample = (bitsPerSample + 7) / 8;`
`U32 buffersPerAcquisition = max(1, (U32)std::round(bytesPerSample * samplesPerAcquisition * channelCount / desiredBytesPerBuffer));`
with `channelCount = 2` and `desiredBytesPerBuffer = (int)2e6`.  The product
is computed in `U32` arithmetic (wrap-around at `2^32`) and the division is
the C++ *integer* division (`std::round` receives an already-truncated
integral value, so it is the identity). -/

/-- Initial buffer count before the exact-division adjustment. -/
def initialBufferCount (bitsPerSample samplesPerAcquisition : ℕ) : ℕ :=
  max 1 ((((bitsPerSample + 7) / 8) * samplesPerAcquisition * 2) % 2 ^ 32 / 2000000)

/-- The divisor-adjustment loop (lines 253-262), fuel-indexed.

```
int spread = 1;
while (samplesPerAcquisition % buffersPerAcquisition != 0) {
  if (samplesPerAcquisition % (buffersPerAcquisition + spread) == 0)
    buffersPerAcquisition += spread;
  else if (samplesPerAcquisition % (buffersPerAcquisition - spread) == 0)
    buffersPerAcquisition -= spread;
  spread++;
}
```

The loop body can change `buffersPerAcquisition` only to a value that
divides `samplesPerAcquisition`, after which the `while` condition fails
and the loop returns that value; so returning `B ± spread` directly is the
exact behaviour and `B` stays constant across the iterations we recurse
over.  `none` means the fuel ran out with the loop still running; the
termination theorem below shows fuel `B` always suffices. -/
def adjustLoop (samples B : ℕ) : ℕ → ℕ → Option ℕ
  | 0, _ => none
  | fuel + 1, spread =>
    if samples % B = 0 then some B
    else if samples % (B + spread) = 0 then some (B + spread)
    else if samples % (B - spread) = 0 then some (B - spread)
    else adjustLoop samples B fuel (spread + 1)

/-- Mirror of `adjustLoop` that records whether every modulus the C++ loop
evaluates has a nonzero divisor (`B - spread` underflows to `0` in C++
exactly when the Lean `Nat` subtraction truncates to `0`; `samples % 0` is
undefined behaviour there). -/
def adjustLoopDivisorsPositive (samples B : ℕ) : ℕ → ℕ → Bool
  | 0, _ => true
  | fuel + 1, spread =>
    if samples % B = 0 then true
    else if samples % (B + spread) = 0 then true
    else
      decide (0 < B - spread) &&
        (if samples % (B - spread) = 0 then true
         else adjustLoopDivisorsPositive samples B fuel (spread + 1))

/-- `ATS::suggestBufferNumber` for a caller-supplied buffer count of `0`:
initial sizing followed by the divisor adjustment (fuel `B₀` suffices;
the `Option.getD` default is never reached). -/
def suggestBufferNumber (bitsPerSample samplesPerAcquisition : ℕ) : ℕ :=
  let B0 := initialBufferCount bitsPerSample samplesPerAcquisition
  (adjustLoop samplesPerAcquisition B0 B0 1).getD B0

/-! ## The specification's formula for the initial buffer count (§4.1)

"If caller passes 0 buffers, choose `B = max(1, round(bytesPerSample ·
samples · 2 / 4·10⁶))` aiming for ~4 MB/buffer".  This definition follows
the spec's words, for comparison with `initialBufferCount` above. -/

/-- Spec-side initial buffer count: real-arithmetic quotient against a
4 MB target, rounded to the nearest integer. -/
def specInitialBufferCount (bitsPerSample samplesPerAcquisition : ℕ) : ℤ :=
  max 1 (round (((bitsPerSample + 7) / 8 : ℕ) * (samplesPerAcquisition : ℚ) * 2 / 4000000))

/-! ## Error handling in `AcquireDataMultithreadedContinuous`
(instruments/ATS.cpp lines 672-946)

The acquisition loop is driven by the results of
`AlazarWaitAsyncBufferComplete`; we script those results (and the values
the loop reads from `syncFlags.pauseDataCollection`) as input lists, one
entry per iteration.  Hardware calls that the claims do not touch
(`AlazarForceTrigger`, `ResetIoBuffer`, `AlazarPostAsyncBuffer`, `_kbhit`)
are taken to succeed / report no key; a trigger or repost failure leaves
the loop through a different path that claim C3 does not mention. -/

/-- Result of one `AlazarWaitAsyncBufferComplete` call (lines 509-530 list
the failure kinds distinguished by the `switch`). -/
inductive WaitResult where
  | success
  | waitTimeout
  | bufferOverflow
  | bufferNotReady
  | dmaInProgress
deriving DecidableEq, Repr

/-- `true` for every failing return code (any `retCode != ApiSuccess`). -/
def WaitResult.isFailure : WaitResult → Bool
  | .success => false
  | _ => true

/-- Outcome of the acquisition loop proper (lines 748-885): how many
buffers were completed and pushed, and whether the loop was left because a
DMA wait failed (`success = FALSE; … break`). -/
structure LoopExit where
  buffersCompleted : ℕ
  waitFailed : Bool
deriving DecidableEq, Repr

/-- The `while (buffersCompleted < buffersPerAcquisition)` loop.  Each
iteration first reads the pause flag (lines 750-756: `break` when set),
then waits on the head buffer; on success it converts and enqueues the
buffer and increments `buffersCompleted`, on failure it prints the failure
kind, skips the re-post and leaves via `if (!success) break` (lines
821-873).  If the scripted inputs run out the run is cut short with the
loop still healthy (that schedule never arises in the theorems). -/
def acquisitionLoop (buffersPerAcquisition : ℕ) :
    ℕ → List Bool → List WaitResult → LoopExit
  | completed, pause :: pauses, wait :: waits =>
    if completed < buffersPerAcquisition then
      if pause then ⟨completed, false⟩
      else if wait.isFailure then ⟨completed, true⟩
      else acquisitionLoop buffersPerAcquisition (completed + 1) pauses waits
    else ⟨completed, false⟩
  | completed, _, _ => ⟨completed, false⟩

/-- Observable state of the acquisition stage when
`AcquireDataMultithreadedContinuous` returns. -/
structure AcqFinalState where
  pauseDataCollection : Bool
  acquisitionComplete : Bool
  abortCalled : Bool
  buffersAllocated : ℕ
  buffersDestroyed : ℕ
  loopExit : LoopExit
deriving DecidableEq, Repr

/-- The whole function on its normal (non-throwing) path: allocate
`BUFFER_COUNT` I/O buffers (lines 697-703; the numeric value of
`BUFFER_COUNT` lives in a header outside this tree, so it is a parameter
here), run the loop, then unconditionally set
`syncFlags.acquisitionComplete = true` (lines 917-921), call
`AlazarAbortAsyncRead` (line 925) and destroy all `BUFFER_COUNT` buffers
(lines 933-936).  `pauseDataCollection` is only ever *read* by this
function, so it keeps its entry value `pause0`. -/
def acquireDataMultithreadedContinuous (bufferCount buffersPerAcquisition : ℕ)
    (pause0 : Bool) (pauses : List Bool) (waits : List WaitResult) :
    AcqFinalState :=
  let exit := acquisitionLoop buffersPerAcquisition 0 pauses waits
  { pauseDataCollection := pause0
    acquisitionComplete := true
    abortCalled := true
    buffersAllocated := bufferCount
    buffersDestroyed := bufferCount
    loopExit := exit }

/-! ## Consumer threads (util/multiThreading.cpp)

`processingThread` (lines 12-54) and `saveDataToBin` (lines 118-167) have
the same loop discipline around their own input queue: wait until the
queue is non-empty, drain it one item at a time, then
`if (syncFlags.acquisitionComplete && queue.empty()) break;`.
We model that discipline as a transition system over the queue length and
the flag; the producer may interleave pushes and may set the flag at any
time, which the `push`/`complete` steps express. -/

/-- State seen by a draining consumer: its input queue length, the
`acquisitionComplete` flag, and whether its loop has exited. -/
structure ConsumerState where
  queue : ℕ
  acqComplete : Bool
  exited : Bool
deriving DecidableEq, Repr

/-- One transition of the consumer loop of `processingThread` /
`saveDataToBin`, interleaved with the producer.  `exit` is the only way to
leave the loop and carries exactly the guard of the `break`
(`acquisitionComplete && queue.empty()`, lines 49 and 162). -/
inductive ConsumerStep : ConsumerState → ConsumerState → Prop where
  | pop (q : ℕ) (a : Bool) :
      ConsumerStep ⟨q + 1, a, false⟩ ⟨q, a, false⟩
  | push (q : ℕ) (a : Bool) :
      ConsumerStep ⟨q, a, false⟩ ⟨q + 1, a, false⟩
  | complete (q : ℕ) (a : Bool) :
      ConsumerStep ⟨q, a, false⟩ ⟨q, true, false⟩
  | exit :
      ConsumerStep ⟨0, true, false⟩ ⟨0, true, true⟩

/-- Executions of the consumer loop: reflexive-transitive closure. -/
def ConsumerReaches : ConsumerState → ConsumerState → Prop :=
  Relation.ReflTransGen ConsumerStep

/-! `decisionMakingThread` (lines 65-105) differs: its inner loop counts
popped buffers and, at the 50th (`if (buffersProcessed >= 50)`), sets
`acquisitionComplete` and `pauseDataCollection` and breaks out of the
inner drain with whatever is left in the queue; its outer exit check reads
only `acquisitionComplete` (line 100), not queue emptiness. -/

/-- Inner drain of `decisionMakingThread` (lines 76-95): pop until the
queue is empty or the count reaches 50.  Returns the remaining queue
length, the final count, and whether the 50-buffer cutoff fired. -/
def decisionInner : ℕ → ℕ → ℕ × ℕ × Bool
  | 0, n => (0, n, false)
  | q + 1, n =>
    if 50 ≤ n + 1 then (q, n + 1, true)
    else decisionInner q (n + 1)

/-- One outer pass of `decisionMakingThread` after its condition wait has
released (queue non-empty), with no further producer activity: drain, then
`if (acquisitionComplete) break`.  Returns `some (queueLeft, acqComplete)`
when the thread exits its loop and `none` when it goes back to blocking on
`processedDataReadyCondition`. -/
def decisionPass (queue0 : ℕ) (buffersProcessed0 : ℕ) (acq0 : Bool) :
    Option (ℕ × Bool) :=
  if (decisionInner queue0 buffersProcessed0).2.2 then
    some ((decisionInner queue0 buffersProcessed0).1, true)
  else if acq0 then some ((decisionInner queue0 buffersProcessed0).1, acq0)
  else none

/-! ## `findClosestIndex` (util/dataProcessingUtils.cpp lines 105-118) -/

/-- The scan from `i = 1` (lines 109-115): keep the index of the first
strictly smaller `|vec[i] - target|`. -/
def findClosestAux (target : ℚ) : List ℚ → ℕ → ℕ × ℚ → ℕ × ℚ
  | [], _, acc => acc
  | x :: rest, i, (best, minDiff) =>
    if |x - target| < minDiff then findClosestAux target rest (i + 1) (i, |x - target|)
    else findClosestAux target rest (i + 1) (best, minDiff)

/-- `findClosestIndex`: `minDifference` starts at `|vec[0] - target|` and
`closestIndex` at `0`.  On the empty vector the C++ reads `vec[0]` out of
bounds (undefined behaviour); that input is outside the precondition and
the model returns `0` there. -/
def findClosestIndex (vec : List ℚ) (target : ℚ) : ℕ :=
  match vec with
  | [] => 0
  | v0 :: rest => (findClosestAux target rest 1 (0, |v0 - target|)).1

/-! ## Theorems -/

/-- C6: for any input range in {0.2, 0.4, 0.8, 2.0} volts and any 16-bit
code `c`, the converted voltage `(c / 0xFFFF) * 2 * range - range` lies in
`[-range, +range]`, and the midscale code `0x8000` converts to a value
within one LSB (`2 * range / 65535`) of `0`. -/
theorem voltage_conversion_range (range : ℚ) (c : ℕ)
    (hr : range = 1/5 ∨ range = 2/5 ∨ range = 4/5 ∨ range = 2)
    (hc : c ≤ 0xFFFF) :
    -range ≤ convertCode c range ∧ convertCode c range ≤ range ∧
      |convertCode 0x8000 range - 0| ≤ 2 * range / 65535 := by
  have hR : (0 : ℚ) < range := by rcases hr with h | h | h | h <;> rw [h] <;> norm_num
  have hc0 : (0 : ℚ) ≤ (c : ℚ) := Nat.cast_nonneg c
  have hc1 : (c : ℚ) ≤ 65535 := by exact_mod_cast hc
  refine ⟨?_, ?_, ?_⟩
  · unfold convertCode
    rw [div_mul_eq_mul_div, div_mul_eq_mul_div]
    nlinarith
  · unfold convertCode
    rw [div_mul_eq_mul_div, div_mul_eq_mul_div]
    nlinarith
  · have hmid : convertCode 0x8000 range - 0 = range / 65535 := by
      unfold convertCode
      push_cast
      ring
    rw [hmid, abs_of_nonneg (by positivity)]
    rw [div_le_div_iff₀ (by norm_num) (by norm_num)]
    nlinarith

/-- Witness for C6 at `range = 0.4`, `c = 12345`. -/
theorem voltage_conversion_range_witness :
    -(2/5 : ℚ) ≤ convertCode 12345 (2/5) ∧ convertCode 12345 (2/5) ≤ 2/5 ∧
      |convertCode 0x8000 (2/5) - 0| ≤ 2 * (2/5) / 65535 :=
  voltage_conversion_range (2/5) 12345 (Or.inr (Or.inl rfl)) (by norm_num)

/-- C5 counterexample: at `bitsPerSample = 16`,
`samplesPerAcquisition = 10⁶` the code's initial buffer count is `2`
(it divides `bytes·samples·2 = 4·10⁶` by the 2 MB target `2·10⁶`), while
the claimed formula `max(1, round(bytes·samples·2 / 4·10⁶))` gives `1`. -/
theorem initialBufferCount_ne_spec :
    ¬((initialBufferCount 16 1000000 : ℤ) = specInitialBufferCount 16 1000000) := by
  have h1 : initialBufferCount 16 1000000 = 2 := by decide
  have h2 : specInitialBufferCount 16 1000000 = 1 := by
    unfold specInitialBufferCount
    norm_num
  rw [h1, h2]
  decide

/-- C5 amended: the initial buffer count equals
`max(1, ⌊bytesPerSample · samples · 2 / 2·10⁶⌋)` — the byte total is taken
in `U32` arithmetic and the quotient against the 2 MB target is truncated,
not rounded. -/
theorem initialBufferCount_eq_floor (bitsPerSample samplesPerAcquisition : ℕ) :
    initialBufferCount bitsPerSample samplesPerAcquisition =
      max 1 ⌊(((((bitsPerSample + 7) / 8) * samplesPerAcquisition * 2) % 2 ^ 32 : ℕ) : ℚ)
              / 2000000⌋₊ := by
  unfold initialBufferCount
  rw [Nat.floor_div_ofNat, Nat.floor_natCast]

/-- C7: in every complex buffer emitted by the acquisition loops, sample
`i` equals `(-1)^(i mod 2)` times the plain code-to-voltage conversion of
the channel-A and channel-B codes: odd-indexed samples are negated in both
components, even-indexed samples are unmodified. -/
theorem buffer_alternation (bufferData : List ℕ) (range : ℚ) (i : ℕ)
    (hi : i < bufferData.length / 2) :
    (convertBuffer bufferData range).getD i (0, 0) =
      ((-1) ^ (i % 2) * convertCode (bufferData.getD i 0) range,
       (-1) ^ (i % 2) * convertCode (bufferData.getD (bufferData.length / 2 + i) 0) range) := by
  unfold convertBuffer
  rw [List.getD_eq_getElem?_getD, List.getElem?_map, List.getElem?_range hi]
  rcases Nat.mod_two_eq_zero_or_one i with h | h
  · have h1 : ¬(i % 2 = 1) := by omega
    simp [h, h1]
  · simp [h]

/-- Witness for C7 at a concrete buffer. -/
theorem buffer_alternation_witness :
    (convertBuffer [1, 2, 3, 4] 2).getD 1 (0, 0) =
      ((-1) ^ (1 % 2) * convertCode (([1, 2, 3, 4] : List ℕ).getD 1 0) 2,
       (-1) ^ (1 % 2) *
         convertCode (([1, 2, 3, 4] : List ℕ).getD (([1, 2, 3, 4] : List ℕ).length / 2 + 1) 0) 2) :=
  buffer_alternation [1, 2, 3, 4] 2 1 (by norm_num)

/-- Any value the adjustment loop returns divides `samples` and is
positive (given `samples ≥ 1`). -/
theorem adjustLoop_some_divides (samples B : ℕ) (hs : 1 ≤ samples) :
    ∀ fuel spread v, adjustLoop samples B fuel spread = some v →
      samples % v = 0 ∧ 1 ≤ v := by
  have pos_of_mod : ∀ w : ℕ, samples % w = 0 → 1 ≤ w := by
    intro w hw
    rcases Nat.eq_zero_or_pos w with rfl | hpos
    · rw [Nat.mod_zero] at hw; omega
    · exact hpos
  intro fuel
  induction fuel with
  | zero => intro spread v h; simp [adjustLoop] at h
  | succ n ih =>
    intro spread v h
    unfold adjustLoop at h
    split at h
    · rename_i hB
      have hv : v = B := (Option.some.inj h).symm
      rw [hv]
      exact ⟨hB, pos_of_mod _ hB⟩
    · split at h
      · rename_i hB
        have hv : v = B + spread := (Option.some.inj h).symm
        rw [hv]
        exact ⟨hB, pos_of_mod _ hB⟩
      · split at h
        · rename_i hB
          have hv : v = B - spread := (Option.some.inj h).symm
          rw [hv]
          exact ⟨hB, pos_of_mod _ hB⟩
        · exact ih (spread + 1) v h

/-- With fuel left at least `B - spread`, and `1 ≤ spread ≤ B - 1`, the
adjustment loop returns within the remaining fuel and every modulus it
evaluates has a positive divisor: at `spread = B - 1` at the latest, the
candidate divisor `B - spread = 1` divides `samples`. -/
theorem adjustLoop_progress (samples B : ℕ) (hB : 1 ≤ B) :
    ∀ fuel spread, 1 ≤ spread → spread ≤ B - 1 → B ≤ spread + fuel →
      (adjustLoop samples B fuel spread).isSome = true ∧
        adjustLoopDivisorsPositive samples B fuel spread = true := by
  intro fuel
  induction fuel with
  | zero => intro spread h1 h2 h3; omega
  | succ n ih =>
    intro spread h1 h2 h3
    rw [adjustLoop, adjustLoopDivisorsPositive]
    split
    · simp
    · split
      · simp
      · split
        · rename_i hsub
          constructor
          · simp
          · have : 0 < B - spread := by omega
            simp [this, hsub]
        · rename_i hmodB hplus hsub
          have hlt : spread < B - 1 := by
            rcases Nat.lt_or_ge spread (B - 1) with h | h
            · exact h
            · exfalso
              have hsp : spread = B - 1 := le_antisymm h2 h
              have : B - spread = 1 := by omega
              rw [this] at hsub
              simp [Nat.mod_one] at hsub
          have hrec := ih (spread + 1) (by omega) (by omega) (by omega)
          refine ⟨hrec.1, ?_⟩
          have : 0 < B - spread := by omega
          simp [this, hsub, hrec.2]

/-- Full-run form of the progress lemma: from the loop entry
(`spread = 1`, fuel `B`), for any `B ≥ 1`. -/
theorem adjustLoop_run (samples B : ℕ) (hB : 1 ≤ B) :
    (adjustLoop samples B B 1).isSome = true ∧
      adjustLoopDivisorsPositive samples B B 1 = true := by
  rcases Nat.lt_or_ge B 2 with h2 | h2
  · obtain rfl : B = 1 := by omega
    rw [adjustLoop, adjustLoopDivisorsPositive]
    simp [Nat.mod_one]
  · exact adjustLoop_progress samples B hB B 1 le_rfl (by omega) (by omega)

/-- C10: for every `samplesPerAcquisition ≥ 1` and initial buffer count
`B ≥ 1`, the divisor-adjustment loop of `suggestBufferNumber` terminates
(within fuel `B`) and never evaluates a modulus with divisor `0`. -/
theorem adjustLoop_terminates_no_div_zero (samples B : ℕ)
    (hs : 1 ≤ samples) (hB : 1 ≤ B) :
    (adjustLoop samples B B 1).isSome = true ∧
      adjustLoopDivisorsPositive samples B B 1 = true :=
  adjustLoop_run samples B hB

/-- Witness for C10 at `samples = 12`, `B = 5` (the loop moves `B` to `6`). -/
theorem adjustLoop_terminates_no_div_zero_witness :
    (adjustLoop 12 5 5 1).isSome = true ∧
      adjustLoopDivisorsPositive 12 5 5 1 = true :=
  adjustLoop_terminates_no_div_zero 12 5 (by norm_num) (by norm_num)

/-- C2: for every `samplesPerAcquisition > 0` (and any hardware
`bitsPerSample`), the buffer count produced by `suggestBufferNumber` when
the caller passes `0` buffers divides `samplesPerAcquisition` exactly and
is at least `1`. -/
theorem suggestBufferNumber_divides (bitsPerSample samplesPerAcquisition : ℕ)
    (hs : 1 ≤ samplesPerAcquisition) :
    samplesPerAcquisition % suggestBufferNumber bitsPerSample samplesPerAcquisition = 0 ∧
      1 ≤ suggestBufferNumber bitsPerSample samplesPerAcquisition := by
  have hdef : suggestBufferNumber bitsPerSample samplesPerAcquisition =
      (adjustLoop samplesPerAcquisition (initialBufferCount bitsPerSample samplesPerAcquisition)
        (initialBufferCount bitsPerSample samplesPerAcquisition) 1).getD
        (initialBufferCount bitsPerSample samplesPerAcquisition) := rfl
  rw [hdef]
  have hB : 1 ≤ initialBufferCount bitsPerSample samplesPerAcquisition :=
    le_max_left 1 _
  have hterm := (adjustLoop_run samplesPerAcquisition
    (initialBufferCount bitsPerSample samplesPerAcquisition) hB).1
  obtain ⟨v, hv⟩ := Option.isSome_iff_exists.mp hterm
  rw [hv]
  exact adjustLoop_some_divides samplesPerAcquisition _ hs _ _ v hv

/-- Witness for C2 at the spec's scenario `samples = 7.5·10⁶`
(with 16-bit samples): the chosen count is `15` and divides exactly. -/
theorem suggestBufferNumber_divides_witness :
    7500000 % suggestBufferNumber 16 7500000 = 0 ∧
      1 ≤ suggestBufferNumber 16 7500000 :=
  suggestBufferNumber_divides 16 7500000 (by norm_num)

/-- The scan of `findClosestIndex` either keeps its incoming best
(and then no scanned element improves on `minDiff`), or lands on an
element of the scanned suffix that is strictly better than `minDiff`,
no worse than every scanned element, and strictly better than every
scanned element before it. -/
theorem findClosestAux_go (target : ℚ) (l : List ℚ) :
    ∀ (i best : ℕ) (minDiff : ℚ),
      (findClosestAux target l i (best, minDiff) = (best, minDiff) ∧
        ∀ k < l.length, minDiff ≤ |l.getD k 0 - target|)
      ∨ (∃ k, k < l.length ∧
          findClosestAux target l i (best, minDiff) = (i + k, |l.getD k 0 - target|) ∧
          |l.getD k 0 - target| < minDiff ∧
          (∀ j < l.length, |l.getD k 0 - target| ≤ |l.getD j 0 - target|) ∧
          (∀ j < k, |l.getD k 0 - target| < |l.getD j 0 - target|)) := by
  induction l with
  | nil =>
    intro i best minDiff
    left
    exact ⟨rfl, by intro k hk; simp at hk⟩
  | cons x rest ih =>
    intro i best minDiff
    rw [findClosestAux]
    by_cases hx : |x - target| < minDiff
    · rw [if_pos hx]
      right
      rcases ih (i + 1) i |x - target| with ⟨heq, hall⟩ | ⟨k, hk, heq, hlt, hall, hbefore⟩
      · refine ⟨0, by simp, ?_, ?_, ?_, ?_⟩
        · simpa using heq
        · simpa using hx
        · intro j hj
          cases j with
          | zero => simp
          | succ j' =>
            simp only [List.getD_cons_succ, List.getD_cons_zero]
            exact hall j' (by simpa using hj)
        · intro j hj; omega
      · refine ⟨k + 1, by simpa using hk, ?_, ?_, ?_, ?_⟩
        · rw [List.getD_cons_succ, heq]
          have harith : i + 1 + k = i + (k + 1) := by omega
          rw [harith]
        · rw [List.getD_cons_succ]
          exact lt_trans hlt hx
        · intro j hj
          cases j with
          | zero =>
            simp only [List.getD_cons_succ, List.getD_cons_zero]
            exact le_of_lt hlt
          | succ j' =>
            simp only [List.getD_cons_succ]
            exact hall j' (by simpa using hj)
        · intro j hj
          cases j with
          | zero =>
            simp only [List.getD_cons_succ, List.getD_cons_zero]
            exact hlt
          | succ j' =>
            simp only [List.getD_cons_succ]
            exact hbefore j' (by omega)
    · rw [if_neg hx]
      push_neg at hx
      rcases ih (i + 1) best minDiff with ⟨heq, hall⟩ | ⟨k, hk, heq, hlt, hall, hbefore⟩
      · left
        refine ⟨heq, ?_⟩
        intro k hkl
        cases k with
        | zero => simpa using hx
        | succ k' =>
          simp only [List.getD_cons_succ]
          exact hall k' (by simpa using hkl)
      · right
        refine ⟨k + 1, by simpa using hk, ?_, ?_, ?_, ?_⟩
        · rw [List.getD_cons_succ, heq]
          have harith : i + 1 + k = i + (k + 1) := by omega
          rw [harith]
        · rw [List.getD_cons_succ]
          exact hlt
        · intro j hj
          cases j with
          | zero =>
            simp only [List.getD_cons_succ, List.getD_cons_zero]
            exact le_trans (le_of_lt hlt) hx
          | succ j' =>
            simp only [List.getD_cons_succ]
            exact hall j' (by simpa using hj)
        · intro j hj
          cases j with
          | zero =>
            simp only [List.getD_cons_succ, List.getD_cons_zero]
            exact lt_of_lt_of_le hlt hx
          | succ j' =>
            simp only [List.getD_cons_succ]
            exact hbefore j' (by omega)

/-- C9: for every non-empty vector and every target, `findClosestIndex`
returns the smallest index whose element minimizes the distance to the
target: the returned index is in range, its distance is a global minimum,
and every earlier index has a strictly larger distance.  (The empty vector
is outside the precondition: the C++ reads `vec[0]` unconditionally.) -/
theorem findClosestIndex_spec (vec : List ℚ) (target : ℚ) (h : vec ≠ []) :
    findClosestIndex vec target < vec.length ∧
      (∀ j < vec.length,
        |vec.getD (findClosestIndex vec target) 0 - target| ≤ |vec.getD j 0 - target|) ∧
      (∀ j < findClosestIndex vec target,
        |vec.getD (findClosestIndex vec target) 0 - target| < |vec.getD j 0 - target|) := by
  match vec with
  | [] => exact absurd rfl h
  | v0 :: rest =>
    have hdef : findClosestIndex (v0 :: rest) target =
        (findClosestAux target rest 1 (0, |v0 - target|)).1 := rfl
    rcases findClosestAux_go target rest 1 0 |v0 - target| with
      ⟨heq, hall⟩ | ⟨k, hk, heq, hlt, hall, hbefore⟩
    · rw [hdef, heq]
      refine ⟨by simp, ?_, ?_⟩
      · intro j hj
        cases j with
        | zero => simp
        | succ j' =>
          simp only [List.getD_cons_succ, List.getD_cons_zero]
          exact hall j' (by simpa using hj)
      · intro j hj; omega
    · have hidx : 1 + k = k + 1 := by omega
      rw [hdef, heq, hidx]
      refine ⟨by simp; omega, ?_, ?_⟩
      · intro j hj
        cases j with
        | zero =>
          simp only [List.getD_cons_succ, List.getD_cons_zero]
          exact le_of_lt hlt
        | succ j' =>
          simp only [List.getD_cons_succ]
          exact hall j' (by simpa using hj)
      · intro j hj
        cases j with
        | zero =>
          simp only [List.getD_cons_succ, List.getD_cons_zero]
          exact hlt
        | succ j' =>
          simp only [List.getD_cons_succ]
          exact hbefore j' (by omega)

/-- Witness for C9: on `[3, 1, 5, 1]` with target `0` the function picks
index `1`, the first of the two closest elements. -/
theorem findClosestIndex_spec_witness :
    findClosestIndex [3, 1, 5, 1] 0 < ([3, 1, 5, 1] : List ℚ).length ∧
      (∀ j < ([3, 1, 5, 1] : List ℚ).length,
        |([3, 1, 5, 1] : List ℚ).getD (findClosestIndex [3, 1, 5, 1] 0) 0 - 0| ≤
          |([3, 1, 5, 1] : List ℚ).getD j 0 - 0|) ∧
      (∀ j < findClosestIndex [3, 1, 5, 1] 0,
        |([3, 1, 5, 1] : List ℚ).getD (findClosestIndex [3, 1, 5, 1] 0) 0 - 0| <
          |([3, 1, 5, 1] : List ℚ).getD j 0 - 0|) :=
  findClosestIndex_spec [3, 1, 5, 1] 0 (by simp)

/-- Running the acquisition loop against a schedule of `s` successful
waits followed by a failing one (the pause flag never set meanwhile) stops
the loop at the failure with exactly `s` buffers completed and reports the
wait failure. -/
theorem acquisitionLoop_stops_at_failure (total : ℕ) (w : WaitResult)
    (hw : w.isFailure = true) (rest : List WaitResult) :
    ∀ s c, c + s < total →
      acquisitionLoop total c (List.replicate (s + 1) false)
          (List.replicate s WaitResult.success ++ w :: rest) = ⟨c + s, true⟩ := by
  intro s
  induction s with
  | zero =>
    intro c hc
    simp only [List.replicate_succ, List.replicate_zero, List.nil_append, List.append_eq,
      acquisitionLoop]
    rw [if_pos (show c < total by omega), if_neg (show ¬(false = true) by simp), if_pos hw]
    rfl
  | succ n ih =>
    intro c hc
    simp only [List.replicate_succ, List.cons_append, List.append_eq, acquisitionLoop]
    rw [if_pos (show c < total by omega), if_neg (show ¬(false = true) by simp),
      if_neg (show ¬(WaitResult.isFailure .success = true) by simp [WaitResult.isFailure])]
    have hih := ih (c + 1) (by omega)
    rw [List.replicate_succ] at hih
    rw [hih, (by omega : c + 1 + n = c + (n + 1))]

/-- C3 amended: whenever the DMA wait fails with any failure kind during
the acquisition loop (after `s` successful buffers, `s` less than the
requested total), `AcquireDataMultithreadedContinuous` exits the loop at
that point with the failure recorded and, before returning, sets the
`acquisitionComplete` flag, aborts the asynchronous read, and destroys
every allocated IO buffer; the `pauseDataCollection` flag is left at its
entry value (the function never writes it). -/
theorem acquisition_wait_failure_teardown (bufCount total s : ℕ)
    (pause0 : Bool) (w : WaitResult) (rest : List WaitResult)
    (hw : w.isFailure = true) (hs : s < total) :
    (acquireDataMultithreadedContinuous bufCount total pause0
        (List.replicate (s + 1) false)
        (List.replicate s WaitResult.success ++ w :: rest)).loopExit = ⟨s, true⟩ ∧
      (acquireDataMultithreadedContinuous bufCount total pause0
        (List.replicate (s + 1) false)
        (List.replicate s WaitResult.success ++ w :: rest)).acquisitionComplete = true ∧
      (acquireDataMultithreadedContinuous bufCount total pause0
        (List.replicate (s + 1) false)
        (List.replicate s WaitResult.success ++ w :: rest)).abortCalled = true ∧
      (acquireDataMultithreadedContinuous bufCount total pause0
        (List.replicate (s + 1) false)
        (List.replicate s WaitResult.success ++ w :: rest)).buffersDestroyed =
        (acquireDataMultithreadedContinuous bufCount total pause0
          (List.replicate (s + 1) false)
          (List.replicate s WaitResult.success ++ w :: rest)).buffersAllocated ∧
      (acquireDataMultithreadedContinuous bufCount total pause0
        (List.replicate (s + 1) false)
        (List.replicate s WaitResult.success ++ w :: rest)).pauseDataCollection = pause0 := by
  have hloop := acquisitionLoop_stops_at_failure total w hw rest s 0 (by omega)
  rw [Nat.zero_add] at hloop
  exact ⟨by rw [show (acquireDataMultithreadedContinuous bufCount total pause0 _ _).loopExit =
      acquisitionLoop total 0 (List.replicate (s + 1) false)
        (List.replicate s WaitResult.success ++ w :: rest) from rfl, hloop],
    rfl, rfl, rfl, rfl⟩

/-- Witness for C3's amended theorem: three good buffers, then a wait
timeout, out of a requested eight. -/
theorem acquisition_wait_failure_teardown_witness :
    (acquireDataMultithreadedContinuous 4 8 false
        (List.replicate (3 + 1) false)
        (List.replicate 3 WaitResult.success ++ WaitResult.waitTimeout :: [])).loopExit =
        ⟨3, true⟩ ∧
      (acquireDataMultithreadedContinuous 4 8 false
        (List.replicate (3 + 1) false)
        (List.replicate 3 WaitResult.success ++ WaitResult.waitTimeout :: [])).acquisitionComplete =
        true ∧
      (acquireDataMultithreadedContinuous 4 8 false
        (List.replicate (3 + 1) false)
        (List.replicate 3 WaitResult.success ++ WaitResult.waitTimeout :: [])).abortCalled = true ∧
      (acquireDataMultithreadedContinuous 4 8 false
        (List.replicate (3 + 1) false)
        (List.replicate 3 WaitResult.success ++ WaitResult.waitTimeout :: [])).buffersDestroyed =
        (acquireDataMultithreadedContinuous 4 8 false
          (List.replicate (3 + 1) false)
          (List.replicate 3 WaitResult.success ++ WaitResult.waitTimeout :: [])).buffersAllocated ∧
      (acquireDataMultithreadedContinuous 4 8 false
        (List.replicate (3 + 1) false)
        (List.replicate 3 WaitResult.success ++ WaitResult.waitTimeout :: [])).pauseDataCollection =
        false :=
  acquisition_wait_failure_teardown 4 8 3 false WaitResult.waitTimeout [] rfl (by norm_num)

/-- C3 counterexample: a run whose very first DMA wait times out exits
with the failure recorded, yet `pauseDataCollection` is still `false` when
the function returns — the code never sets the pause flag, contradicting
the claim that both flags are set. -/
theorem acquisition_wait_failure_pause_not_set :
    (acquireDataMultithreadedContinuous 4 8 false [false]
        [WaitResult.waitTimeout]).loopExit.waitFailed = true ∧
      (acquireDataMultithreadedContinuous 4 8 false [false]
        [WaitResult.waitTimeout]).pauseDataCollection = false := by
  exact ⟨rfl, rfl⟩

/-- Exiting the `processingThread` / `saveDataToBin` loop is possible only
through the `acquisitionComplete && queue.empty()` break, so any execution
that starts inside the loop and ends exited has the flag set and an empty
queue. -/
theorem consumer_exit_requires_drained (init s : ConsumerState)
    (hrun : ConsumerReaches init s) (hinit : init.exited = false)
    (hexit : s.exited = true) :
    s.acqComplete = true ∧ s.queue = 0 := by
  induction hrun with
  | refl => rw [hinit] at hexit; exact absurd hexit (by simp)
  | tail _ step _ =>
    cases step with
    | pop q a => exact absurd hexit (by simp)
    | push q a => exact absurd hexit (by simp)
    | complete q a => exact absurd hexit (by simp)
    | exit => exact ⟨rfl, rfl⟩

/-- `decisionPass` exits only with `acquisitionComplete` set: either its
50-buffer cutoff set the flag itself, or the flag was already set. -/
theorem decisionPass_exit_acqComplete (queue0 buffersProcessed0 : ℕ)
    (acq0 : Bool) (qLeft : ℕ) (acq : Bool)
    (h : decisionPass queue0 buffersProcessed0 acq0 = some (qLeft, acq)) :
    acq = true := by
  unfold decisionPass at h
  by_cases hcut : (decisionInner queue0 buffersProcessed0).2.2 = true
  · rw [if_pos hcut] at h
    exact ((Prod.mk.injEq _ _ _ _).mp (Option.some.inj h)).2.symm
  · rw [if_neg hcut] at h
    by_cases hacq : acq0 = true
    · rw [if_pos hacq] at h
      rw [← ((Prod.mk.injEq _ _ _ _).mp (Option.some.inj h)).2, hacq]
    · rw [if_neg hacq] at h
      exact absurd h (by simp)

/-- C4 amended: `processingThread` and `saveDataToBin` exit their loops
only in a state where `acquisitionComplete` is set and their own input
queue is empty; `decisionMakingThread` exits only with
`acquisitionComplete` set, but its 50-buffer cutoff can leave items
unconsumed in its queue. -/
theorem consumer_threads_exit_discipline (q0 : ℕ) (a0 : Bool)
    (s : ConsumerState) (hrun : ConsumerReaches ⟨q0, a0, false⟩ s)
    (hexit : s.exited = true) :
    (s.acqComplete = true ∧ s.queue = 0) ∧
      (∀ (queue0 n0 : ℕ) (acq0 : Bool) (qLeft : ℕ) (acq : Bool),
        decisionPass queue0 n0 acq0 = some (qLeft, acq) → acq = true) :=
  ⟨consumer_exit_requires_drained _ s hrun rfl hexit,
   fun _ _ _ _ _ h => decisionPass_exit_acqComplete _ _ _ _ _ h⟩

/-- Witness for C4's amended theorem: the run pop; complete; exit from a
one-element queue. -/
theorem consumer_threads_exit_discipline_witness :
    ((⟨0, true, true⟩ : ConsumerState).acqComplete = true ∧
        (⟨0, true, true⟩ : ConsumerState).queue = 0) ∧
      (∀ (queue0 n0 : ℕ) (acq0 : Bool) (qLeft : ℕ) (acq : Bool),
        decisionPass queue0 n0 acq0 = some (qLeft, acq) → acq = true) :=
  consumer_threads_exit_discipline 1 false ⟨0, true, true⟩
    (Relation.ReflTransGen.tail
      (Relation.ReflTransGen.tail
        (Relation.ReflTransGen.tail Relation.ReflTransGen.refl
          (ConsumerStep.pop 0 false))
        (ConsumerStep.complete 0 false))
      ConsumerStep.exit)
    rfl

/-- C4 counterexample: `decisionMakingThread` fed 51 queued buffers pops
50, trips its cutoff (setting `acquisitionComplete`), and exits its loop
with one unconsumed item still in the queue. -/
theorem decisionPass_exits_with_unconsumed :
    decisionPass 51 0 false = some (1, true) ∧ (1 : ℕ) ≠ 0 := by
  exact ⟨by decide, by decide⟩

/-- Elements read through `getD` inside the list bounds inherit a bound
that holds for all members. -/
theorem getD_nonneg_of_forall {l : List ℚ} (h0 : ∀ e ∈ l, 0 ≤ e) {j : ℕ}
    (hj : j < l.length) : 0 ≤ l.getD j 0 := by
  rw [List.getD_eq_getElem l 0 hj]
  exact h0 _ (List.getElem_mem hj)

/-- The clock-selection scan either keeps its incoming best index (and
then no scanned error beats `minErr`), or lands on a scanned error that is
strictly below `minErr`, no worse than every scanned error, and strictly
better than every scanned error before it.  The early break at a zero
error is covered by the nonnegativity hypothesis. -/
theorem bestIndexLoop_go (l : List ℚ) :
    ∀ (i best : ℕ) (minErr : ℚ), (∀ e ∈ l, 0 ≤ e) →
      (bestIndexLoop l i best minErr = best ∧ ∀ k < l.length, minErr ≤ l.getD k 0)
      ∨ (∃ k, k < l.length ∧ bestIndexLoop l i best minErr = i + k ∧
          l.getD k 0 < minErr ∧
          (∀ j < l.length, l.getD k 0 ≤ l.getD j 0) ∧
          (∀ j < k, l.getD k 0 < l.getD j 0)) := by
  induction l with
  | nil =>
    intro i best minErr _
    left
    exact ⟨rfl, by intro k hk; simp at hk⟩
  | cons x rest ih =>
    intro i best minErr h0
    have h0rest : ∀ e ∈ rest, 0 ≤ e := fun e he => h0 e (List.mem_cons_of_mem x he)
    rw [bestIndexLoop]
    by_cases hx : x < minErr
    · rw [if_pos hx]
      by_cases hx0 : x = 0
      · rw [if_pos hx0]
        right
        refine ⟨0, by simp, by simp, by simpa [hx0] using hx, ?_, by omega⟩
        intro j hj
        cases j with
        | zero => simp
        | succ j' =>
          simp only [List.getD_cons_succ, List.getD_cons_zero, hx0]
          exact getD_nonneg_of_forall h0rest (by simpa using hj)
      · rw [if_neg hx0]
        right
        rcases ih (i + 1) i x h0rest with ⟨heq, hall⟩ | ⟨k, hk, heq, hlt, hall, hbefore⟩
        · refine ⟨0, by simp, by simpa using heq, by simpa using hx, ?_, by omega⟩
          intro j hj
          cases j with
          | zero => simp
          | succ j' =>
            simp only [List.getD_cons_succ, List.getD_cons_zero]
            exact hall j' (by simpa using hj)
        · refine ⟨k + 1, by simp; omega, ?_, ?_, ?_, ?_⟩
          · rw [heq]
            omega
          · rw [List.getD_cons_succ]
            exact lt_trans hlt hx
          · intro j hj
            cases j with
            | zero =>
              simp only [List.getD_cons_succ, List.getD_cons_zero]
              exact le_of_lt hlt
            | succ j' =>
              simp only [List.getD_cons_succ]
              exact hall j' (by simpa using hj)
          · intro j hj
            cases j with
            | zero =>
              simp only [List.getD_cons_succ, List.getD_cons_zero]
              exact hlt
            | succ j' =>
              simp only [List.getD_cons_succ]
              exact hbefore j' (by omega)
    · rw [if_neg hx]
      push_neg at hx
      rcases ih (i + 1) best minErr h0rest with ⟨heq, hall⟩ | ⟨k, hk, heq, hlt, hall, hbefore⟩
      · left
        refine ⟨heq, ?_⟩
        intro k hkl
        cases k with
        | zero => simpa using hx
        | succ k' =>
          simp only [List.getD_cons_succ]
          exact hall k' (by simpa using hkl)
      · right
        refine ⟨k + 1, by simp; omega, ?_, ?_, ?_, ?_⟩
        · rw [heq]
          omega
        · rw [List.getD_cons_succ]
          exact hlt
        · intro j hj
          cases j with
          | zero =>
            simp only [List.getD_cons_succ, List.getD_cons_zero]
            exact le_trans (le_of_lt hlt) hx
          | succ j' =>
            simp only [List.getD_cons_succ]
            exact hall j' (by simpa using hj)
        · intro j hj
          cases j with
          | zero =>
            simp only [List.getD_cons_succ, List.getD_cons_zero]
            exact lt_of_lt_of_le hlt hx
          | succ j' =>
            simp only [List.getD_cons_succ]
            exact hbefore j' (by omega)

/-- Every bare rate offered by the board lies in `[150·10⁶, 180·10⁶]`. -/
theorem bareSampleRates_bounds :
    ∀ b ∈ bareSampleRates, 150000000 ≤ b ∧ b ≤ 180000000 := by decide

/-- The candidate error list reads back, position by position, as the
error of the corresponding bare rate. -/
theorem clockErrors_getD (r' : ℚ) (j : ℕ) (hj : j < bareSampleRates.length) :
    (clockErrors r').getD j 0 = |effectiveRate r' (bareSampleRates.getD j 0) - r'| := by
  unfold clockErrors
  rw [List.getD_eq_getElem _ 0 (by simpa using hj), List.getElem_map,
    List.getD_eq_getElem _ 0 hj]

/-- Candidate errors are absolute values, hence nonnegative. -/
theorem clockErrors_nonneg (r' : ℚ) : ∀ e ∈ clockErrors r', 0 ≤ e := by
  intro e he
  obtain ⟨b, _, rfl⟩ := List.mem_map.mp he
  exact abs_nonneg _

/-- The decimation factor the loop computes is always a legal one:
an integer in `[1, 10000]` (for clamped requests, i.e. `0 ≤ r' ≤ 180·10⁶`,
and bare rates of at least `150·10⁶`). -/
theorem decimationFor_bounds (r' : ℚ) (h0 : 0 ≤ r') (h1 : r' ≤ 180000000)
    (b : ℕ) (hb : 150000000 ≤ b) :
    1 ≤ decimationFor r' b ∧ decimationFor r' b ≤ 10000 := by
  unfold decimationFor
  by_cases hz : r' = 0
  · rw [if_pos hz]
    exact ⟨by norm_num, le_refl _⟩
  · rw [if_neg hz]
    have hpos : 0 < r' := lt_of_le_of_ne h0 (Ne.symm hz)
    refine ⟨le_min ?_ (by norm_num), min_le_right _ _⟩
    rw [round_eq, Int.le_floor]
    have hb' : (150000000 : ℚ) ≤ (b : ℚ) := by exact_mod_cast hb
    have hq : (1 : ℚ) / 2 ≤ (b : ℚ) / r' := by
      rw [le_div_iff₀ hpos]
      nlinarith
    push_cast
    linarith

/-- The first candidate error is a finite number, in particular smaller
than the `DBL_MAX` the loop starts from. -/
theorem clockErrors_head_lt_dblMax (r' : ℚ) (h0 : 0 ≤ r') (h1 : r' ≤ 180000000) :
    (clockErrors r').getD 0 0 < dblMax := by
  have hlen : (0 : ℕ) < bareSampleRates.length := by decide
  rw [clockErrors_getD r' 0 hlen]
  have hb0 : bareSampleRates.getD 0 0 = 150000000 := by decide
  rw [hb0]
  obtain ⟨hd1, _⟩ := decimationFor_bounds r' h0 h1 150000000 (le_refl _)
  have hd1' : (1 : ℚ) ≤ ((decimationFor r' 150000000 : ℤ) : ℚ) := by exact_mod_cast hd1
  have heff0 : (0 : ℚ) ≤ effectiveRate r' 150000000 := by
    unfold effectiveRate
    exact div_nonneg (by positivity) (by linarith)
  have heff1 : effectiveRate r' 150000000 ≤ 150000000 := by
    unfold effectiveRate
    calc ((150000000 : ℕ) : ℚ) / ((decimationFor r' 150000000 : ℤ) : ℚ)
        ≤ ((150000000 : ℕ) : ℚ) := div_le_self (by positivity) hd1'
      _ = 150000000 := by norm_num
  have hbig : (330000000 : ℚ) < dblMax := by unfold dblMax; norm_num
  rw [abs_lt]
  constructor <;> linarith

/-- C1 amended: for every requested sample rate `r ∈ [0, 2·10⁸]` Hz,
`setExternalSampleClock` selects a pair `(bare, d)` with
`bare ∈ {150·10⁶, …, 180·10⁶}` and `d` an integer in `[1, 10000]`, where
`d = min(round(bare/r'), 10000)` for the clamped request
`r' = min(r, 180·10⁶)` (`d = 10000` when `r = 0`); among the 31 candidate
pairs so formed no other has `|bare/d - r'|` strictly smaller, and every
candidate at a lower bare rate has a strictly larger error (first minimum
wins); the returned realized rate equals `bare/d` for the chosen pair.
(Minimality over *all* `d ∈ [1, 10000]` — the original claim — fails; see
the counterexample.) -/
theorem setExternalSampleClock_selection (r : ℚ) (hr0 : 0 ≤ r)
    (hr1 : r ≤ 200000000) :
    selectedBareRate r ∈ bareSampleRates ∧
      1 ≤ selectedDecimation r ∧ selectedDecimation r ≤ 10000 ∧
      realizedRate r = ((selectedBareRate r : ℕ) : ℚ) / ((selectedDecimation r : ℤ) : ℚ) ∧
      (∀ b ∈ bareSampleRates,
        |realizedRate r - clampRate r| ≤ |effectiveRate (clampRate r) b - clampRate r|) ∧
      (∀ j < bestClockIndex r,
        |realizedRate r - clampRate r| <
          |effectiveRate (clampRate r) (bareSampleRates.getD j 0) - clampRate r|) := by
  have hc0 : 0 ≤ clampRate r := le_min (abs_nonneg r) (by norm_num)
  have hc1 : clampRate r ≤ 180000000 := min_le_right _ _
  have hlen : (clockErrors (clampRate r)).length = bareSampleRates.length :=
    List.length_map _ _
  rcases bestIndexLoop_go (clockErrors (clampRate r)) 0 0 dblMax
      (clockErrors_nonneg (clampRate r)) with ⟨_, hall⟩ | ⟨k, hk, heq, _, hall, hbefore⟩
  · exact absurd (hall 0 (by rw [hlen]; decide))
      (not_le.mpr (clockErrors_head_lt_dblMax (clampRate r) hc0 hc1))
  · have hkidx : bestClockIndex r = k := by
      unfold bestClockIndex
      rw [heq]
      omega
    have hklen : k < bareSampleRates.length := by rwa [hlen] at hk
    have hmem : selectedBareRate r ∈ bareSampleRates := by
      unfold selectedBareRate
      rw [hkidx, List.getD_eq_getElem _ 0 hklen]
      exact List.getElem_mem hklen
    have hbbound := bareSampleRates_bounds _ hmem
    have hdbounds := decimationFor_bounds (clampRate r) hc0 hc1
      (selectedBareRate r) hbbound.1
    have herr : |realizedRate r - clampRate r| =
        (clockErrors (clampRate r)).getD (bestClockIndex r) 0 := by
      rw [hkidx, clockErrors_getD (clampRate r) k hklen]
      unfold realizedRate selectedBareRate
      rw [hkidx]
    refine ⟨hmem, hdbounds.1, hdbounds.2, rfl, ?_, ?_⟩
    · intro b hb
      obtain ⟨j, hj, hgb⟩ := List.mem_iff_getElem.mp hb
      rw [herr, hkidx]
      have hEj : (clockErrors (clampRate r)).getD j 0 =
          |effectiveRate (clampRate r) b - clampRate r| := by
        rw [clockErrors_getD (clampRate r) j hj, List.getD_eq_getElem _ 0 hj, hgb]
      rw [← hEj]
      exact hall j (by rwa [hlen])
    · intro j hj
      rw [herr, hkidx]
      have hjk : j < k := by rwa [hkidx] at hj
      have hjlen : j < bareSampleRates.length := lt_trans hjk hklen
      have hEj : (clockErrors (clampRate r)).getD j 0 =
          |effectiveRate (clampRate r) (bareSampleRates.getD j 0) - clampRate r| :=
        clockErrors_getD (clampRate r) j hjlen
      rw [← hEj]
      exact hbefore j hjk

/-- Witness for C1's amended theorem at `r = 10⁷` Hz. -/
theorem setExternalSampleClock_selection_witness :
    selectedBareRate 10000000 ∈ bareSampleRates ∧
      1 ≤ selectedDecimation 10000000 ∧ selectedDecimation 10000000 ≤ 10000 ∧
      realizedRate 10000000 =
        ((selectedBareRate 10000000 : ℕ) : ℚ) / ((selectedDecimation 10000000 : ℤ) : ℚ) ∧
      (∀ b ∈ bareSampleRates,
        |realizedRate 10000000 - clampRate 10000000| ≤
          |effectiveRate (clampRate 10000000) b - clampRate 10000000|) ∧
      (∀ j < bestClockIndex 10000000,
        |realizedRate 10000000 - clampRate 10000000| <
          |effectiveRate (clampRate 10000000) (bareSampleRates.getD j 0) -
            clampRate 10000000|) :=
  setExternalSampleClock_selection 10000000 (by norm_num) (by norm_num)

/-- C1 counterexample: at the requested rate `r = 15000.75005` Hz
(`300015001/20000`, inside `[0, 2·10⁸]`), the legal pair
`(bare, d) = (150·10⁶, 10000)` satisfies
`|bare/d - r| = 15001/20000 = 0.75005`, strictly smaller than the error of
the pair the code selects (the code rounds `150·10⁶/r ≈ 9999.49998` down
to `9999`, and every other bare rate clamps to `d = 10000` far away), so
the chosen pair is not a global minimizer over all legal pairs. -/
theorem setExternalSampleClock_misses_closer_pair :
    (150000000 : ℕ) ∈ bareSampleRates ∧ (1 : ℤ) ≤ 10000 ∧ (10000 : ℤ) ≤ 10000 ∧
      |(150000000 : ℚ) / 10000 - 300015001 / 20000| <
        |realizedRate (300015001 / 20000) - 300015001 / 20000| := by
  have hclamp : clampRate ((300015001 : ℚ) / 20000) = 300015001 / 20000 := by
    unfold clampRate
    rw [abs_of_nonneg (by norm_num)]
    exact min_eq_left (by norm_num)
  have hsplit : ∀ b ∈ bareSampleRates, b = 150000000 ∨ 151000000 ≤ b := by decide
  have hcand : ∀ b ∈ bareSampleRates,
      (15001 : ℚ) / 20000 <
        |effectiveRate ((300015001 : ℚ) / 20000) b - 300015001 / 20000| := by
    intro b hb
    rcases hsplit b hb with rfl | hge
    · have hd : decimationFor ((300015001 : ℚ) / 20000) 150000000 = 9999 := by
        unfold decimationFor
        rw [if_neg (by norm_num)]
        have hq : (((150000000 : ℕ) : ℚ) / (300015001 / 20000)) =
            3000000000000 / 300015001 := by
          push_cast
          rw [div_div_eq_mul_div]
          norm_num
        rw [hq, round_eq]
        have hfl : ⌊(3000000000000 : ℚ) / 300015001 + 1 / 2⌋ = 9999 := by
          apply Int.floor_eq_iff.mpr
          constructor
          · push_cast
            rw [div_add_div _ _ (by norm_num) (by norm_num), le_div_iff₀ (by norm_num)]
            norm_num
          · push_cast
            rw [div_add_div _ _ (by norm_num) (by norm_num), div_lt_iff₀ (by norm_num)]
            norm_num
        rw [hfl]
        norm_num
      unfold effectiveRate
      rw [hd]
      have hval : (((150000000 : ℕ) : ℚ) / (((9999 : ℤ) : ℤ) : ℚ) - 300015001 / 20000) =
          150005001 / 199980000 := by
        push_cast
        rw [div_sub_div _ _ (by norm_num) (by norm_num)]
        norm_num
      rw [hval, abs_of_nonneg (by norm_num)]
      rw [div_lt_div_iff₀ (by norm_num) (by norm_num)]
      norm_num
    · have hb' : (151000000 : ℚ) ≤ (b : ℚ) := by exact_mod_cast hge
      have hd : decimationFor ((300015001 : ℚ) / 20000) b = 10000 := by
        unfold decimationFor
        rw [if_neg (by norm_num)]
        refine min_eq_right ?_
        rw [round_eq, Int.le_floor]
        have hpos : (0 : ℚ) < 300015001 / 20000 := by norm_num
        have h95 : (19999 : ℚ) / 2 ≤ (b : ℚ) / (300015001 / 20000) := by
          rw [le_div_iff₀ hpos]
          have hconst : (19999 : ℚ) / 2 * (300015001 / 20000) ≤ 151000000 := by
            rw [div_mul_div_comm, div_le_iff₀ (by norm_num)]
            norm_num
          linarith
        push_cast
        linarith
      unfold effectiveRate
      rw [hd]
      have h15100 : (15100 : ℚ) ≤ (b : ℚ) / (((10000 : ℤ) : ℤ) : ℚ) := by
        push_cast
        rw [le_div_iff₀ (by norm_num)]
        linarith
      have hnn : (0 : ℚ) ≤ (b : ℚ) / (((10000 : ℤ) : ℤ) : ℚ) - 300015001 / 20000 := by
        have : (300015001 : ℚ) / 20000 ≤ 15100 := by norm_num
        linarith
      rw [abs_of_nonneg hnn]
      have : (15001 : ℚ) / 20000 < 15100 - 300015001 / 20000 := by norm_num
      linarith
  have hlen : (clockErrors (clampRate ((300015001 : ℚ) / 20000))).length =
      bareSampleRates.length := List.length_map _ _
  refine ⟨by decide, by norm_num, le_refl _, ?_⟩
  have halt : |(150000000 : ℚ) / 10000 - 300015001 / 20000| = 15001 / 20000 := by
    rw [abs_of_nonpos (by norm_num)]
    norm_num
  rw [halt]
  rcases bestIndexLoop_go (clockErrors (clampRate ((300015001 : ℚ) / 20000))) 0 0 dblMax
      (clockErrors_nonneg _) with ⟨_, hall⟩ | ⟨k, hk, heq, _, _, _⟩
  · exact absurd (hall 0 (by rw [hlen]; decide))
      (not_le.mpr (clockErrors_head_lt_dblMax _ (by rw [hclamp]; norm_num)
        (by rw [hclamp]; norm_num)))
  · have hkidx : bestClockIndex ((300015001 : ℚ) / 20000) = k := by
      unfold bestClockIndex
      rw [heq]
      omega
    have hklen : k < bareSampleRates.length := by rwa [hlen] at hk
    have herr : |realizedRate ((300015001 : ℚ) / 20000) -
        clampRate ((300015001 : ℚ) / 20000)| =
        |effectiveRate (clampRate ((300015001 : ℚ) / 20000))
          (bareSampleRates.getD k 0) - clampRate ((300015001 : ℚ) / 20000)| := by
      unfold realizedRate selectedBareRate
      rw [hkidx]
    have hmemk : bareSampleRates.getD k 0 ∈ bareSampleRates := by
      rw [List.getD_eq_getElem _ 0 hklen]
      exact List.getElem_mem hklen
    have hfinal := hcand (bareSampleRates.getD k 0) hmemk
    rw [hclamp] at herr
    rw [herr]
    exact hfinal

/-- C8: requesting `10⁷` Hz selects the bare rate `150·10⁶` with
decimation `15`, and the realized rate is exactly `10⁷` Hz. -/
theorem clock_scenario_10MHz :
    selectedBareRate 10000000 = 150000000 ∧ selectedDecimation 10000000 = 15 ∧
      realizedRate 10000000 = 10000000 := by
  have hclamp : clampRate (10000000 : ℚ) = 10000000 := by
    unfold clampRate
    rw [abs_of_nonneg (by norm_num)]
    exact min_eq_left (by norm_num)
  have hd : decimationFor (10000000 : ℚ) 150000000 = 15 := by
    unfold decimationFor
    rw [if_neg (by norm_num)]
    have hq : (((150000000 : ℕ) : ℚ) / 10000000) = 15 := by
      push_cast
      norm_num
    rw [hq]
    have hr15 : round ((15 : ℚ)) = 15 := by
      rw [round_eq]
      norm_num
    rw [hr15]
    exact min_eq_left (by norm_num)
  have hlen : (clockErrors (clampRate (10000000 : ℚ))).length =
      bareSampleRates.length := List.length_map _ _
  have hE0 : (clockErrors (clampRate (10000000 : ℚ))).getD 0 0 = 0 := by
    rw [clockErrors_getD _ 0 (by decide)]
    have hb0 : bareSampleRates.getD 0 0 = 150000000 := by decide
    rw [hb0, hclamp]
    unfold effectiveRate
    rw [hd]
    push_cast
    norm_num
  rcases bestIndexLoop_go (clockErrors (clampRate (10000000 : ℚ))) 0 0 dblMax
      (clockErrors_nonneg _) with ⟨_, hall⟩ | ⟨k, hk, heq, _, hall, hbefore⟩
  · exact absurd (hall 0 (by rw [hlen]; decide))
      (not_le.mpr (clockErrors_head_lt_dblMax _ (by rw [hclamp]; norm_num)
        (by rw [hclamp]; norm_num)))
  · have hk0 : k = 0 := by
      by_contra hne
      have hlt0 := hbefore 0 (Nat.pos_of_ne_zero hne)
      rw [hE0] at hlt0
      have hnn : 0 ≤ (clockErrors (clampRate (10000000 : ℚ))).getD k 0 :=
        getD_nonneg_of_forall (clockErrors_nonneg _) hk
      linarith
    subst hk0
    have hidx : bestClockIndex 10000000 = 0 := by
      unfold bestClockIndex
      rw [heq]
    have hbare : selectedBareRate 10000000 = 150000000 := by
      unfold selectedBareRate
      rw [hidx]
      decide
    refine ⟨hbare, ?_, ?_⟩
    · unfold selectedDecimation
      rw [hbare, hclamp]
      exact hd
    · unfold realizedRate
      rw [hbare, hclamp]
      unfold effectiveRate
      rw [hd]
      push_cast
      norm_num

end InstrumentControl
